import Mathlib

/-!
Shallow embedding of `download_pdb.py`: the debug-info extractor
`extract_pdb_info`, the `PdbInfo` record with its `basename` method, and the
URL construction and HTTP-status mapping of `download_pdb`.

The PE container parsing performed by the external `pefile` library is
modelled by its output: a `ParsedPE` structure holding the (optional) list of
debug-directory entries, each carrying the fields `extract_pdb_info` reads.
Python `bytes` values are modelled as `List Nat` (each element one byte),
Python `str` values as Lean `String`.
-/

/-- Parsed debug-directory entry, as produced by `pefile`: the fields of
`pe.DIRECTORY_ENTRY_DEBUG[0].entry` that `extract_pdb_info` reads. -/
structure DebugEntry where
  CvSignature : List Nat
  Signature_Data1 : Nat
  Signature_Data2 : Nat
  Signature_Data3 : Nat
  Signature_Data4 : Nat
  Signature_Data5 : Nat
  Signature_Data6 : List Nat
  Signature : Nat
  Age : Nat
  PdbFileName : List Nat
  deriving Repr, DecidableEq

/-- Result of `pefile.PE(data=pe_data)` as seen by `extract_pdb_info`.
Value `none` for `DIRECTORY_ENTRY_DEBUG` models the attribute being absent
(`not hasattr(pe, 'DIRECTORY_ENTRY_DEBUG')`). -/
structure ParsedPE where
  DIRECTORY_ENTRY_DEBUG : Option (List DebugEntry)
  deriving Repr, DecidableEq

/-- The `PdbInfo` record of the source: a signature string and the embedded
PDB file name. -/
structure PdbInfo where
  pdb_signature : String
  pdbfilename : String
  deriving Repr, DecidableEq

/-- Uppercase hexadecimal digit of a nibble value (0-15 to 0-9, A-F). -/
def hexDigitU (n : Nat) : Char :=
  if n < 10 then Char.ofNat (48 + n) else Char.ofNat (55 + n)

/-- Lowercase hexadecimal digit of a nibble value (0-15 to 0-9, a-f). -/
def hexDigitL (n : Nat) : Char :=
  if n < 10 then Char.ofNat (48 + n) else Char.ofNat (87 + n)

/-- Digits of `n` in base 16, uppercase, most significant first; empty for 0.
Structural recursion on a fuel argument so that the kernel can evaluate it;
the fuel never runs out because `n / 16` decreases strictly. -/
def hexCoreAux : Nat → Nat → List Char
  | _, 0 => []
  | 0, _ + 1 => []
  | fuel + 1, n + 1 => hexCoreAux fuel ((n + 1) / 16) ++ [hexDigitU ((n + 1) % 16)]

/-- Digits of `n` in base 16, uppercase, most significant first; empty for 0. -/
def hexCore (n : Nat) : List Char :=
  hexCoreAux n n

/-- Python `'{:X}'.format(n)`: natural-width uppercase hex, `0` for zero. -/
def pyHexU (n : Nat) : List Char :=
  if n = 0 then ['0'] else hexCore n

/-- Python `'{:0wX}'.format(n)`: uppercase hex, left-padded with zeros to
minimum width `w`. -/
def pyHexUPad (w n : Nat) : List Char :=
  List.replicate (w - (pyHexU n).length) '0' ++ pyHexU n

/-- Python `bytes.hex()`: two lowercase hexadecimal digits per byte. -/
def bytesHexLower (b : List Nat) : List Char :=
  b.flatMap (fun x => [hexDigitL (x / 16), hexDigitL (x % 16)])

/-- Signature string built for an `RSDS` debug entry: the value of
`'{:08X}{:04X}{:04X}{:02X}{:02X}{}{:X}'.format(Data1, Data2, Data3, Data4,
Data5, Data6.hex().upper(), Age)`. -/
def rsdsSignature (e : DebugEntry) : String :=
  String.mk (pyHexUPad 8 e.Signature_Data1 ++ pyHexUPad 4 e.Signature_Data2 ++
    pyHexUPad 4 e.Signature_Data3 ++ pyHexUPad 2 e.Signature_Data4 ++
    pyHexUPad 2 e.Signature_Data5 ++
    (bytesHexLower e.Signature_Data6).map Char.toUpper ++
    pyHexU e.Age)

/-- Test for a UTF-8 continuation byte (0x80-0xBF). -/
def isCont (b : Nat) : Bool :=
  decide (0x80 ≤ b) && decide (b < 0xC0)

/-- Strict UTF-8 decoding of a byte list, the semantics of Python
`bytes.decode()`: rejects truncated sequences, stray continuation bytes,
overlong encodings, surrogate code points and values above U+10FFFF.
Structural recursion on a fuel argument; one unit of fuel is always enough
for one decoded scalar because every sequence consumes at least one byte. -/
def utf8DecodeAux : Nat → List Nat → Option (List Char)
  | _, [] => some []
  | 0, _ :: _ => none
  | fuel + 1, b1 :: t1 =>
    if b1 < 0x80 then
      (utf8DecodeAux fuel t1).map (fun cs => Char.ofNat b1 :: cs)
    else if b1 < 0xC2 then none
    else if b1 < 0xE0 then
      match t1 with
      | [] => none
      | b2 :: t2 =>
        if isCont b2 then
          (utf8DecodeAux fuel t2).map (fun cs =>
            Char.ofNat ((b1 - 0xC0) * 0x40 + (b2 - 0x80)) :: cs)
        else none
    else if b1 < 0xF0 then
      match t1 with
      | [] => none
      | [_] => none
      | b2 :: b3 :: t3 =>
        let cp := (b1 - 0xE0) * 0x1000 + (b2 - 0x80) * 0x40 + (b3 - 0x80)
        if isCont b2 ∧ isCont b3 ∧ 0x800 ≤ cp ∧ (cp < 0xD800 ∨ 0xE000 ≤ cp) then
          (utf8DecodeAux fuel t3).map (fun cs => Char.ofNat cp :: cs)
        else none
    else if b1 < 0xF5 then
      match t1 with
      | [] => none
      | [_] => none
      | [_, _] => none
      | b2 :: b3 :: b4 :: t4 =>
        let cp := (b1 - 0xF0) * 0x40000 + (b2 - 0x80) * 0x1000 +
          (b3 - 0x80) * 0x40 + (b4 - 0x80)
        if isCont b2 ∧ isCont b3 ∧ isCont b4 ∧ 0x10000 ≤ cp ∧ cp < 0x110000 then
          (utf8DecodeAux fuel t4).map (fun cs => Char.ofNat cp :: cs)
        else none
    else none

/-- Strict UTF-8 decoding of a byte list (fuel instantiated at the length,
which always suffices). -/
def utf8Decode (b : List Nat) : Option (List Char) :=
  utf8DecodeAux b.length b

/-- UTF-8 encoding of one scalar value. -/
def utf8EncodeChar (c : Char) : List Nat :=
  let n := c.toNat
  if n < 0x80 then [n]
  else if n < 0x800 then [0xC0 + n / 0x40, 0x80 + n % 0x40]
  else if n < 0x10000 then
    [0xE0 + n / 0x1000, 0x80 + n / 0x40 % 0x40, 0x80 + n % 0x40]
  else
    [0xF0 + n / 0x40000, 0x80 + n / 0x1000 % 0x40, 0x80 + n / 0x40 % 0x40,
      0x80 + n % 0x40]

/-- UTF-8 encoding of a character list. -/
def utf8Encode (cs : List Char) : List Nat :=
  cs.flatMap utf8EncodeChar

/-- Extraction failures. `noDebugEntry` and `unsupportedDebugEntryType` model
the classified `ExtractPdbException` subclasses; `foundExc` models the bare
`Exception('found')` raised on the `01BN` branch; `indexError` models the
`IndexError` raised by `pdbfilename[-1]` on empty bytes; `unicodeDecodeError`
models a failure of `bytes.decode()`. -/
inductive ExtractError where
  | noDebugEntry
  | unsupportedDebugEntryType (tag : List Nat)
  | foundExc
  | indexError
  | unicodeDecodeError
  deriving Repr, DecidableEq

/-- Test whether the error belongs to the classified `ExtractPdbException`
taxonomy (`NoDebugEntryException` or `UnsupportedDebugEntryTypeError`). -/
def ExtractError.classified : ExtractError → Bool
  | .noDebugEntry => true
  | .unsupportedDebugEntryType _ => true
  | _ => false

/-- Byte values of the tag `b'RSDS'`. -/
def RSDS_TAG : List Nat := [0x52, 0x53, 0x44, 0x53]

/-- Byte values of the tag `b'01BN'`. -/
def TAG_01BN : List Nat := [0x30, 0x31, 0x42, 0x4E]

/-- Body of `extract_pdb_info` after `pefile` parsing. -/
def extract_pdb_info (pe : ParsedPE) : Except ExtractError PdbInfo :=
  match pe.DIRECTORY_ENTRY_DEBUG with
  | none => .error .noDebugEntry
  | some [] => .error .noDebugEntry
  | some (e :: _) =>
    if e.CvSignature = RSDS_TAG then
      let signature := rsdsSignature e
      match e.PdbFileName with
      | [] => .error .indexError
      | b :: bs =>
        let fn := if (b :: bs).getLast? = some 0 then (b :: bs).dropLast else b :: bs
        match utf8Decode fn with
        | some cs => .ok ⟨signature, String.mk cs⟩
        | none => .error .unicodeDecodeError
    else if e.CvSignature = TAG_01BN then
      .error .foundExc
    else
      .error (.unsupportedDebugEntryType e.CvSignature)

/-- Python `str.rfind(c)` on a character list: highest index at which `c`
occurs, `-1` if absent. -/
def rfindIdx (l : List Char) (c : Char) : Int :=
  match l with
  | [] => -1
  | a :: t =>
    let r := rfindIdx t c
    if r ≠ -1 then r + 1 else if a = c then 0 else -1

/-- Body of `PdbInfo.basename` on a character list: take the maximum of the
last indices of `/` and `\`, and if one occurs keep only what follows it. -/
def basenameChars (l : List Char) : List Char :=
  let last_slash := max (rfindIdx l '/') (rfindIdx l '\\')
  if last_slash = -1 then l else l.drop (last_slash + 1).toNat

/-- The `basename` method of `PdbInfo`. -/
def PdbInfo.basename (info : PdbInfo) : String :=
  String.mk (basenameChars info.pdbfilename.data)

/-- Fetch failures: the `DownloadPdbException` subclasses. -/
inductive DownloadError where
  | pdbNotFound
  | unexpectedReturnStatus (status : Nat)
  deriving Repr, DecidableEq

/-- Default symbol store of `download_pdb`. -/
def DEFAULT_PDB_STORE : String := "https://msdl.microsoft.com/download/symbols"

/-- Python `s.endswith('/')`: for a one-character suffix, the last character
equals `/`. -/
def endsWithSlash (s : String) : Bool :=
  s.data.getLast? = some '/'

/-- Python `s[:-1]`: the string without its last character. -/
def dropLastChar (s : String) : String :=
  String.mk s.data.dropLast

/-- URL requested by `download_pdb`: default store when none is given, one
trailing slash stripped, then `store/basename/signature/basename`. -/
def downloadUrl (pdbinfo : PdbInfo) (pdbstore : Option String) : String :=
  let store := match pdbstore with
    | none => DEFAULT_PDB_STORE
    | some s => s
  let store := if endsWithSlash store then dropLastChar store else store
  let pdbbasename := pdbinfo.basename
  store ++ "/" ++ pdbbasename ++ "/" ++ pdbinfo.pdb_signature ++ "/" ++ pdbbasename

/-- HTTP response mapping of `download_pdb`: 404 raises `PdbNotFoundError`,
200 returns the body, anything else raises `UnexpectedReturnStatusError`. -/
def responseOutcome (status : Nat) (body : List Nat) : Except DownloadError (List Nat) :=
  if status = 404 then .error .pdbNotFound
  else if status = 200 then .ok body
  else .error (.unexpectedReturnStatus status)

/-- Whole of `download_pdb`, with the HTTP transport abstracted as a function
from the request URL to a (status, body) pair. -/
def download_pdb (pdbinfo : PdbInfo) (pdbstore : Option String)
    (http : String → Nat × List Nat) : Except DownloadError (List Nat) :=
  let url := downloadUrl pdbinfo pdbstore
  responseOutcome (http url).1 (http url).2

/-- Formalisation of the words of the specification: exactly `w` uppercase
hexadecimal digits of `n`, most significant first ("`Data1` as 8 uppercase
hex digits, `Data2` as 4, ..."). -/
def hexFix : Nat → Nat → List Char
  | 0, _ => []
  | w + 1, n => hexFix w (n / 16) ++ [hexDigitU (n % 16)]

/-- Formalisation of the words of the specification: the signature is the
concatenation of `Data1` in 8 uppercase hex digits, `Data2` in 4, `Data3` in
4, `Data4` in 2, `Data5` in 2, the bytes of `Data6` as uppercase hex pairs,
then `Age` in uppercase hex at natural width, with no separators. -/
def specRsdsSignature (d1 d2 d3 d4 d5 : Nat) (d6 : List Nat) (age : Nat) : String :=
  String.mk (hexFix 8 d1 ++ hexFix 4 d2 ++ hexFix 4 d3 ++ hexFix 2 d4 ++
    hexFix 2 d5 ++ d6.flatMap (fun x => [hexDigitU (x / 16), hexDigitU (x % 16)]) ++
    pyHexU age)

/-- Formalisation of the words of the specification: `basename` keeps the
longest suffix containing neither `/` nor `\`, i.e. everything after the
last separator, the whole string when no separator occurs. -/
def specBasenameChars (l : List Char) : List Char :=
  (l.reverse.takeWhile (fun c => !(c = '/' || c = '\\'))).reverse

/-- Specification-side `basename` on strings. -/
def specBasename (s : String) : String :=
  String.mk (specBasenameChars s.data)

/-- Formalisation of the words of the specification: the store root is the
well-known public Microsoft symbol-server root when none is supplied, and a
single trailing `/` is stripped. -/
def specStoreRoot (store : Option String) : String :=
  match store with
  | none => DEFAULT_PDB_STORE
  | some s => if endsWithSlash s then dropLastChar s else s

/-- Formalisation of the words of the specification: the request URL is
`{store}/{base}/{signature}/{base}` with `base` the identity's basename. -/
def specUrl (identity : PdbInfo) (store : Option String) : String :=
  let base := specBasename identity.pdbfilename
  specStoreRoot store ++ "/" ++ base ++ "/" ++ identity.pdb_signature ++ "/" ++ base

/-- Big-step relation of one run of `extract_pdb_info`: one constructor per
control path of the source. Used to state determinism of the extractor. -/
inductive ExtractR : ParsedPE → Except ExtractError PdbInfo → Prop where
  | noDir (pe : ParsedPE) (h : pe.DIRECTORY_ENTRY_DEBUG = none) :
      ExtractR pe (.error .noDebugEntry)
  | emptyDir (pe : ParsedPE) (h : pe.DIRECTORY_ENTRY_DEBUG = some []) :
      ExtractR pe (.error .noDebugEntry)
  | rsdsEmptyName (pe : ParsedPE) (e : DebugEntry) (rest : List DebugEntry)
      (hdir : pe.DIRECTORY_ENTRY_DEBUG = some (e :: rest))
      (htag : e.CvSignature = RSDS_TAG) (hfn : e.PdbFileName = []) :
      ExtractR pe (.error .indexError)
  | rsdsOk (pe : ParsedPE) (e : DebugEntry) (rest : List DebugEntry)
      (fn : List Nat) (cs : List Char)
      (hdir : pe.DIRECTORY_ENTRY_DEBUG = some (e :: rest))
      (htag : e.CvSignature = RSDS_TAG) (hne : e.PdbFileName ≠ [])
      (hstrip : fn = (if e.PdbFileName.getLast? = some 0 then
        e.PdbFileName.dropLast else e.PdbFileName))
      (hdec : utf8Decode fn = some cs) :
      ExtractR pe (.ok ⟨rsdsSignature e, String.mk cs⟩)
  | rsdsDecodeFail (pe : ParsedPE) (e : DebugEntry) (rest : List DebugEntry)
      (fn : List Nat)
      (hdir : pe.DIRECTORY_ENTRY_DEBUG = some (e :: rest))
      (htag : e.CvSignature = RSDS_TAG) (hne : e.PdbFileName ≠ [])
      (hstrip : fn = (if e.PdbFileName.getLast? = some 0 then
        e.PdbFileName.dropLast else e.PdbFileName))
      (hdec : utf8Decode fn = none) :
      ExtractR pe (.error .unicodeDecodeError)
  | legacy (pe : ParsedPE) (e : DebugEntry) (rest : List DebugEntry)
      (hdir : pe.DIRECTORY_ENTRY_DEBUG = some (e :: rest))
      (htag : e.CvSignature = TAG_01BN) :
      ExtractR pe (.error .foundExc)
  | unsupported (pe : ParsedPE) (e : DebugEntry) (rest : List DebugEntry)
      (hdir : pe.DIRECTORY_ENTRY_DEBUG = some (e :: rest))
      (h1 : e.CvSignature ≠ RSDS_TAG) (h2 : e.CvSignature ≠ TAG_01BN) :
      ExtractR pe (.error (.unsupportedDebugEntryType e.CvSignature))

/-- Debug entry of the worked example in the specification: Data1 0x9C85A737,
Data2 0x3CC2, Data3 0xBC2A, Data4 0x7A, Data5 0xB9, Data6 the bytes
C9 38 89 52 B8 F8, Age 1. -/
def exampleRsdsEntry : DebugEntry where
  CvSignature := RSDS_TAG
  Signature_Data1 := 0x9C85A737
  Signature_Data2 := 0x3CC2
  Signature_Data3 := 0xBC2A
  Signature_Data4 := 0x7A
  Signature_Data5 := 0xB9
  Signature_Data6 := [0xC9, 0x38, 0x89, 0x52, 0xB8, 0xF8]
  Signature := 0
  Age := 1
  PdbFileName := [0x78, 0x2E, 0x70, 0x64, 0x62, 0x00]

/-- Character test of the specification: neither `/` nor `\`. -/
def notSep (c : Char) : Bool :=
  !(c = '/' || c = '\\')

/-- Helper for concrete test inputs: a debug entry with the given tag and
embedded file-name bytes, all numeric fields zero. -/
def plainEntry (tag : List Nat) (fn : List Nat) : DebugEntry where
  CvSignature := tag
  Signature_Data1 := 0
  Signature_Data2 := 0
  Signature_Data3 := 0
  Signature_Data4 := 0
  Signature_Data5 := 0
  Signature_Data6 := []
  Signature := 0
  Age := 0
  PdbFileName := fn

/-- Identity of the URL-construction example in the specification. -/
def exampleIdentity : PdbInfo where
  pdb_signature := "ABCDEF0123456789ABCDEF0123456789A"
  pdbfilename := "x\\vcruntime140_1.amd64.pdb"

/-- Parsed image holding exactly one `RSDS` debug entry, for concrete runs. -/
def exampleRsdsPE : ParsedPE := ⟨some [exampleRsdsEntry]⟩

theorem hexCoreAux_fuel :
    ∀ n fuel1 fuel2, n ≤ fuel1 → n ≤ fuel2 →
      hexCoreAux fuel1 n = hexCoreAux fuel2 n := by
  intro n
  induction n using Nat.strong_induction_on with
  | _ n ih =>
    intro fuel1 fuel2 h1 h2
    match n, fuel1, fuel2 with
    | 0, f1, f2 =>
      cases f1 <;> cases f2 <;> rfl
    | m + 1, f1 + 1, f2 + 1 =>
      rw [hexCoreAux, hexCoreAux]
      have hq : (m + 1) / 16 < m + 1 := Nat.div_lt_self (Nat.succ_pos m) (by decide)
      rw [ih ((m + 1) / 16) hq f1 f2 (by omega) (by omega)]

theorem hexCore_zero : hexCore 0 = [] := rfl

theorem hexCore_ne (n : Nat) (h : n ≠ 0) :
    hexCore n = hexCore (n / 16) ++ [hexDigitU (n % 16)] := by
  match n, h with
  | m + 1, _ =>
    have hq : (m + 1) / 16 < m + 1 := Nat.div_lt_self (Nat.succ_pos m) (by decide)
    rw [hexCore, hexCore, hexCoreAux,
      hexCoreAux_fuel ((m + 1) / 16) m ((m + 1) / 16) (by omega) (le_refl _)]

theorem pyHexU_small (n : Nat) (h : n < 16) : pyHexU n = [hexDigitU n] := by
  by_cases h0 : n = 0
  · subst h0
    decide
  · rw [pyHexU, if_neg h0, hexCore_ne n h0, Nat.div_eq_of_lt h, hexCore_zero,
      Nat.mod_eq_of_lt h]
    rfl

theorem pyHexU_large (n : Nat) (h : 16 ≤ n) :
    pyHexU n = pyHexU (n / 16) ++ [hexDigitU (n % 16)] := by
  have hn0 : n ≠ 0 := by omega
  have hq0 : n / 16 ≠ 0 := by
    have := Nat.one_le_div_iff (by decide : 0 < 16) |>.mpr h
    omega
  rw [pyHexU, if_neg hn0, hexCore_ne n hn0, pyHexU, if_neg hq0]

theorem hexFix_eq_pyHexUPad :
    ∀ w n, n < 16 ^ (w + 1) → hexFix (w + 1) n = pyHexUPad (w + 1) n := by
  intro w
  induction w with
  | zero =>
    intro n hn
    have hn16 : n < 16 := by simpa using hn
    rw [hexFix, hexFix, Nat.mod_eq_of_lt hn16, pyHexUPad, pyHexU_small n hn16]
    simp
  | succ w ih =>
    intro n hn
    have hq : n / 16 < 16 ^ (w + 1) := by
      rw [Nat.div_lt_iff_lt_mul (by decide : 0 < 16)]
      calc n < 16 ^ (w + 2) := hn
        _ = 16 ^ (w + 1) * 16 := by ring
    rw [hexFix, ih (n / 16) hq]
    by_cases h16 : 16 ≤ n
    · have hL : pyHexU n = pyHexU (n / 16) ++ [hexDigitU (n % 16)] := pyHexU_large n h16
      rw [pyHexUPad, pyHexUPad, hL]
      have hlen : (pyHexU (n / 16) ++ [hexDigitU (n % 16)]).length
          = (pyHexU (n / 16)).length + 1 := by simp
      rw [hlen]
      have harith : w + 1 + 1 - ((pyHexU (n / 16)).length + 1)
          = w + 1 - (pyHexU (n / 16)).length := by omega
      rw [harith, List.append_assoc]
    · have hn16 : n < 16 := by omega
      rw [Nat.div_eq_of_lt hn16, Nat.mod_eq_of_lt hn16, pyHexUPad, pyHexUPad,
        pyHexU_small n hn16]
      have h0 : pyHexU 0 = ['0'] := rfl
      rw [h0]
      simp only [List.length_singleton]
      have h1 : w + 1 + 1 - 1 = w + 1 := by omega
      have h2 : w + 1 - 1 = w := by omega
      rw [h1, h2, List.replicate_succ' w '0', List.append_assoc]

theorem toUpper_hexDigitL (d : Nat) (h : d < 16) :
    Char.toUpper (hexDigitL d) = hexDigitU d := by
  interval_cases d <;> decide

theorem bytesHexLower_map_toUpper :
    ∀ b : List Nat, (∀ x ∈ b, x < 256) →
      (bytesHexLower b).map Char.toUpper
        = b.flatMap (fun x => [hexDigitU (x / 16), hexDigitU (x % 16)]) := by
  intro b
  induction b with
  | nil => intro _; rfl
  | cons x t ih =>
    intro hb
    have hx : x < 256 := hb x (List.mem_cons_self x t)
    have hq : x / 16 < 16 := by omega
    have hr : x % 16 < 16 := Nat.mod_lt x (by decide)
    have ht : ∀ y ∈ t, y < 256 := fun y hy => hb y (List.mem_cons_of_mem x hy)
    rw [bytesHexLower, List.flatMap_cons, List.flatMap_cons, List.map_append,
      ← bytesHexLower, ih ht]
    congr 1
    simp [toUpper_hexDigitL _ hq, toUpper_hexDigitL _ hr]

/-- C1: for a debug entry tagged `RSDS` whose fields are in range, the
signature built by `extract_pdb_info` is Data1 in 8 uppercase hex digits,
Data2 in 4, Data3 in 4, Data4 in 2, Data5 in 2, the bytes of Data6 as
uppercase hex pairs, then Age in uppercase hex without zero padding and with
no separators; moreover any identity `extract_pdb_info` returns for a PE
whose first debug entry is this one carries exactly that signature. -/
theorem C1_rsds_signature_format (e : DebugEntry)
    (htag : e.CvSignature = RSDS_TAG)
    (h1 : e.Signature_Data1 < 2 ^ 32) (h2 : e.Signature_Data2 < 2 ^ 16)
    (h3 : e.Signature_Data3 < 2 ^ 16) (h4 : e.Signature_Data4 < 2 ^ 8)
    (h5 : e.Signature_Data5 < 2 ^ 8) (h6 : ∀ x ∈ e.Signature_Data6, x < 256) :
    rsdsSignature e
      = specRsdsSignature e.Signature_Data1 e.Signature_Data2 e.Signature_Data3
          e.Signature_Data4 e.Signature_Data5 e.Signature_Data6 e.Age
    ∧ ∀ (pe : ParsedPE) (rest : List DebugEntry) (info : PdbInfo),
        pe.DIRECTORY_ENTRY_DEBUG = some (e :: rest) →
        extract_pdb_info pe = .ok info →
        info.pdb_signature = rsdsSignature e := by
  constructor
  · rw [rsdsSignature, specRsdsSignature,
      hexFix_eq_pyHexUPad 7 e.Signature_Data1 (by norm_num at h1 ⊢; omega),
      hexFix_eq_pyHexUPad 3 e.Signature_Data2 (by norm_num at h2 ⊢; omega),
      hexFix_eq_pyHexUPad 3 e.Signature_Data3 (by norm_num at h3 ⊢; omega),
      hexFix_eq_pyHexUPad 1 e.Signature_Data4 (by norm_num at h4 ⊢; omega),
      hexFix_eq_pyHexUPad 1 e.Signature_Data5 (by norm_num at h5 ⊢; omega),
      bytesHexLower_map_toUpper e.Signature_Data6 h6]
  · intro pe rest info hdir hok
    simp only [extract_pdb_info, hdir, htag, if_true] at hok
    revert hok
    match e.PdbFileName with
    | [] => intro hok; exact absurd hok (by simp)
    | b :: bs =>
      intro hok
      revert hok
      cases hdec : utf8Decode (if (b :: bs).getLast? = some 0
          then (b :: bs).dropLast else b :: bs) with
      | none => intro hok; simp [hdec] at hok
      | some cs =>
        intro hok
        simp only [hdec, Except.ok.injEq] at hok
        rw [← hok]

/-- Witness for C1 at the specification's worked example: the signature is
exactly the 33-character string. -/
theorem C1_rsds_signature_format_witness :
    rsdsSignature exampleRsdsEntry = "9C85A7373CC2BC2A7AB9C9388952B8F81" := by
  have h := C1_rsds_signature_format exampleRsdsEntry rfl (by decide)
    (by decide) (by decide) (by decide) (by decide) (by decide)
  rw [h.1]
  rfl

theorem rfindIdx_ge_neg_one (l : List Char) (c : Char) : -1 ≤ rfindIdx l c := by
  induction l with
  | nil => simp [rfindIdx]
  | cons a t ih =>
    rw [rfindIdx]
    by_cases hr : rfindIdx t c = -1
    · by_cases hac : a = c <;> simp [hr, hac]
    · simp only [ne_eq, hr, not_false_eq_true, if_pos]
      omega

theorem rfindIdx_eq_neg_one_iff (l : List Char) (c : Char) :
    rfindIdx l c = -1 ↔ c ∉ l := by
  induction l with
  | nil => simp [rfindIdx]
  | cons a t ih =>
    have hge := rfindIdx_ge_neg_one t c
    rw [rfindIdx]
    simp only [List.mem_cons]
    by_cases hr : rfindIdx t c = -1
    · have hc : c ∉ t := ih.mp hr
      by_cases hac : a = c
      · simp [hr, hac]
      · rw [if_neg (by simp [hr]), if_neg hac]
        constructor
        · intro _ habs
          rcases habs with h | h
          · exact hac h.symm
          · exact hc h
        · intro _
          rfl
    · have hmem : c ∈ t := not_not.mp (fun h => hr (ih.mpr h))
      rw [if_pos hr]
      constructor
      · intro habs
        omega
      · intro habs
        exact absurd (Or.inr hmem) habs

theorem specBasenameChars_def (l : List Char) :
    specBasenameChars l = (l.reverse.takeWhile notSep).reverse := rfl

theorem maxRfind_step (a : Char) (t : List Char)
    (h : max (rfindIdx t '/') (rfindIdx t '\\') ≠ -1) :
    max (rfindIdx (a :: t) '/') (rfindIdx (a :: t) '\\')
      = max (rfindIdx t '/') (rfindIdx t '\\') + 1 := by
  have g1 := rfindIdx_ge_neg_one t '/'
  have g2 := rfindIdx_ge_neg_one t '\\'
  rw [rfindIdx, rfindIdx]
  by_cases h1 : rfindIdx t '/' = -1 <;> by_cases h2 : rfindIdx t '\\' = -1
  · exact absurd (by omega) h
  · simp only [ne_eq, h1, h2, not_true_eq_false, if_false, not_false_eq_true, if_pos]
    by_cases ha : a = '/' <;> simp only [ha, if_true, if_false, if_neg] <;> omega
  · simp only [ne_eq, h1, h2, not_true_eq_false, if_false, not_false_eq_true, if_pos]
    by_cases ha : a = '\\' <;> simp only [ha, if_true, if_false, if_neg] <;> omega
  · simp only [ne_eq, h1, h2, not_false_eq_true, if_pos]
    omega

theorem length_takeWhile_ne_of_mem (p : Char → Bool) :
    ∀ (l : List Char) (x : Char), x ∈ l → p x = false →
      (List.takeWhile p l).length ≠ l.length := by
  intro l
  induction l with
  | nil => intro x hx; exact absurd hx (List.not_mem_nil x)
  | cons a t ih =>
    intro x hx hpx
    rw [List.takeWhile_cons]
    by_cases hpa : p a
    · rw [if_pos hpa]
      have hxt : x ∈ t := by
        rcases List.mem_cons.mp hx with h | h
        · rw [h] at hpx
          rw [hpx] at hpa
          exact absurd hpa (by simp)
        · exact h
      simp only [List.length_cons]
      intro habs
      exact ih x hxt hpx (by omega)
    · rw [if_neg hpa]
      simp

theorem basenameChars_eq_spec : ∀ l : List Char, basenameChars l = specBasenameChars l := by
  intro l
  induction l with
  | nil => rfl
  | cons a t ih =>
    have g1 := rfindIdx_ge_neg_one t '/'
    have g2 := rfindIdx_ge_neg_one t '\\'
    rw [specBasenameChars_def, List.reverse_cons]
    by_cases hM : max (rfindIdx t '/') (rfindIdx t '\\') = -1
    · have h1 : rfindIdx t '/' = -1 := by omega
      have h2 : rfindIdx t '\\' = -1 := by omega
      have hs : '/' ∉ t := (rfindIdx_eq_neg_one_iff t '/').mp h1
      have hb : '\\' ∉ t := (rfindIdx_eq_neg_one_iff t '\\').mp h2
      have hall : ∀ x ∈ t.reverse, notSep x := by
        intro x hx
        rw [List.mem_reverse] at hx
        rw [notSep]
        simp only [Bool.not_eq_true']
        by_cases hx1 : x = '/'
        · exact absurd (hx1 ▸ hx) hs
        · by_cases hx2 : x = '\\'
          · exact absurd (hx2 ▸ hx) hb
          · simp [hx1, hx2]
      have htw : t.reverse.takeWhile notSep = t.reverse :=
        List.takeWhile_eq_self_iff.mpr hall
      rw [List.takeWhile_append, htw]
      simp only [List.length_reverse, if_pos]
      by_cases ha : notSep a
      · have ha2 : a ≠ '/' ∧ a ≠ '\\' := by
          rw [notSep] at ha
          simpa using ha
        have hM2 : max (rfindIdx (a :: t) '/') (rfindIdx (a :: t) '\\') = -1 := by
          rw [rfindIdx, rfindIdx]
          simp [h1, h2, ha2.1, ha2.2]
        rw [basenameChars, hM2, if_pos rfl]
        have hta : List.takeWhile notSep [a] = [a] := by
          simp [List.takeWhile_cons, ha]
        rw [hta, List.reverse_append, List.reverse_reverse]
        rfl
      · have haSep : a = '/' ∨ a = '\\' := by
          rw [Bool.not_eq_true, notSep] at ha
          by_cases h : a = '/'
          · exact Or.inl h
          · right
            simpa [h] using ha
        have hM2 : max (rfindIdx (a :: t) '/') (rfindIdx (a :: t) '\\') = 0 := by
          rw [rfindIdx, rfindIdx]
          rcases haSep with h | h
          · have hne : a ≠ '\\' := by
              rw [h]
              decide
            simp [h1, h2, h, hne]
          · have hne : a ≠ '/' := by
              rw [h]
              decide
            simp [h1, h2, h, hne]
        rw [basenameChars, hM2]
        simp only [if_neg (by decide : ¬((0 : Int) = -1))]
        have hta : List.takeWhile notSep [a] = [] := by
          rw [Bool.not_eq_true] at ha
          simp [List.takeWhile_cons, ha]
        rw [hta, List.append_nil, List.reverse_reverse]
        rfl
    · have hstep := maxRfind_step a t hM
      have hsep : ∃ x ∈ t.reverse, notSep x = false := by
        by_cases h1 : rfindIdx t '/' = -1
        · have h2 : rfindIdx t '\\' ≠ -1 := by omega
          have hmem : '\\' ∈ t := by
            by_contra hnot
            exact h2 ((rfindIdx_eq_neg_one_iff t '\\').mpr hnot)
          exact ⟨'\\', List.mem_reverse.mpr hmem, by decide⟩
        · have hmem : '/' ∈ t := by
            by_contra hnot
            exact h1 ((rfindIdx_eq_neg_one_iff t '/').mpr hnot)
          exact ⟨'/', List.mem_reverse.mpr hmem, by decide⟩
      rcases hsep with ⟨x, hx, hxf⟩
      have htw := length_takeWhile_ne_of_mem notSep t.reverse x hx hxf
      rw [List.takeWhile_append, if_neg htw]
      rw [basenameChars, hstep]
      have hne2 : max (rfindIdx t '/') (rfindIdx t '\\') + 1 ≠ -1 := by omega
      rw [if_neg hne2]
      have harith : (max (rfindIdx t '/') (rfindIdx t '\\') + 1 + 1).toNat
          = (max (rfindIdx t '/') (rfindIdx t '\\') + 1).toNat + 1 := by omega
      rw [harith, List.drop_succ_cons]
      rw [basenameChars, if_neg hM] at ih
      rw [ih, specBasenameChars_def]

/-- C3: `basename` is the pure suffix of the stored filename after the last
`/` or `\`, computed by scanning the string itself, and both the Windows-style
and the POSIX-style example paths yield `vcruntime140_1.amd64.pdb`. -/
theorem C3_basename_suffix :
    (∀ info : PdbInfo, info.basename = specBasename info.pdbfilename)
    ∧ (PdbInfo.mk "S" "C:\\sym\\vcruntime140_1.amd64.pdb").basename
        = "vcruntime140_1.amd64.pdb"
    ∧ (PdbInfo.mk "S" "/sym/vcruntime140_1.amd64.pdb").basename
        = "vcruntime140_1.amd64.pdb" := by
  refine ⟨fun info => ?_, by decide, by decide⟩
  rw [PdbInfo.basename, specBasename, basenameChars_eq_spec]

/-- C4: an image whose debug-directory table is absent or has zero entries
makes `extract_pdb_info` fail with the classified `NoDebugEntryException`. -/
theorem C4_no_debug_entry (pe : ParsedPE)
    (h : pe.DIRECTORY_ENTRY_DEBUG = none ∨ pe.DIRECTORY_ENTRY_DEBUG = some []) :
    extract_pdb_info pe = .error .noDebugEntry
    ∧ ExtractError.noDebugEntry.classified = true := by
  rcases h with h | h <;> exact ⟨by simp [extract_pdb_info, h], rfl⟩

/-- Witness for C4 at the two concrete degenerate images. -/
theorem C4_no_debug_entry_witness :
    extract_pdb_info ⟨none⟩ = .error .noDebugEntry
    ∧ extract_pdb_info ⟨some []⟩ = .error .noDebugEntry :=
  ⟨(C4_no_debug_entry ⟨none⟩ (Or.inl rfl)).1,
   (C4_no_debug_entry ⟨some []⟩ (Or.inr rfl)).1⟩

/-- C5: a first debug entry whose tag is neither `RSDS` nor `01BN` makes
`extract_pdb_info` fail with `UnsupportedDebugEntryTypeError` carrying exactly
the 4-byte tag observed in the entry. -/
theorem C5_unsupported_tag (pe : ParsedPE) (e : DebugEntry) (rest : List DebugEntry)
    (hdir : pe.DIRECTORY_ENTRY_DEBUG = some (e :: rest))
    (h1 : e.CvSignature ≠ RSDS_TAG) (h2 : e.CvSignature ≠ TAG_01BN) :
    extract_pdb_info pe = .error (.unsupportedDebugEntryType e.CvSignature) := by
  simp [extract_pdb_info, hdir, h1, h2]

/-- Witness for C5 at the concrete tag `NB10` (bytes 4E 42 31 30). -/
theorem C5_unsupported_tag_witness :
    extract_pdb_info ⟨some [plainEntry [0x4E, 0x42, 0x31, 0x30] []]⟩
      = .error (.unsupportedDebugEntryType [0x4E, 0x42, 0x31, 0x30]) :=
  C5_unsupported_tag _ (plainEntry [0x4E, 0x42, 0x31, 0x30] []) [] rfl
    (by decide) (by decide)

/-- Counterexample to C2 as stated: on a debug entry tagged `01BN` the source
executes `raise Exception('found')`, so the failure is the unclassified
`foundExc`, not `UnsupportedDebugEntryTypeError` carrying the tag. -/
theorem C2_counterexample :
    extract_pdb_info ⟨some [plainEntry TAG_01BN [0x61]]⟩ = .error .foundExc
    ∧ ExtractError.foundExc ≠ .unsupportedDebugEntryType TAG_01BN := by
  constructor
  · rfl
  · decide

/-- C2 amended: a debug entry tagged `01BN` makes `extract_pdb_info` raise the
bare, unclassified `Exception('found')` — not `UnsupportedDebugEntryTypeError`
— and no identity (hence no signature) is ever produced for that entry. -/
theorem C2_amended_01bn (pe : ParsedPE) (e : DebugEntry) (rest : List DebugEntry)
    (hdir : pe.DIRECTORY_ENTRY_DEBUG = some (e :: rest))
    (htag : e.CvSignature = TAG_01BN) :
    extract_pdb_info pe = .error .foundExc
    ∧ ExtractError.foundExc.classified = false
    ∧ ∀ info : PdbInfo, extract_pdb_info pe ≠ .ok info := by
  have h1 : e.CvSignature ≠ RSDS_TAG := by
    rw [htag]
    decide
  have hmain : extract_pdb_info pe = .error .foundExc := by
    simp only [extract_pdb_info, hdir]
    rw [if_neg h1, if_pos htag]
  refine ⟨hmain, rfl, fun info habs => ?_⟩
  rw [hmain] at habs
  exact Except.noConfusion habs

/-- Witness for the amended C2 at a concrete single-entry image. -/
theorem C2_amended_01bn_witness :
    extract_pdb_info ⟨some [plainEntry TAG_01BN [0x61]]⟩ = .error .foundExc
    ∧ ExtractError.foundExc.classified = false :=
  ⟨(C2_amended_01bn ⟨some [plainEntry TAG_01BN [0x61]]⟩
      (plainEntry TAG_01BN [0x61]) [] rfl rfl).1,
   (C2_amended_01bn ⟨some [plainEntry TAG_01BN [0x61]]⟩
      (plainEntry TAG_01BN [0x61]) [] rfl rfl).2.1⟩

/-- C10: an `RSDS` entry whose embedded filename field is empty makes
`extract_pdb_info` hit `pdbfilename[-1]` on an empty sequence: the result is
the unclassified `IndexError`, neither an identity nor a classified
extraction failure. -/
theorem C10_empty_filename (pe : ParsedPE) (e : DebugEntry) (rest : List DebugEntry)
    (hdir : pe.DIRECTORY_ENTRY_DEBUG = some (e :: rest))
    (htag : e.CvSignature = RSDS_TAG) (hfn : e.PdbFileName = []) :
    extract_pdb_info pe = .error .indexError
    ∧ ExtractError.indexError.classified = false
    ∧ (∀ info : PdbInfo, extract_pdb_info pe ≠ .ok info)
    ∧ (∀ err : ExtractError, extract_pdb_info pe = .error err →
        err.classified = false) := by
  have hmain : extract_pdb_info pe = .error .indexError := by
    simp [extract_pdb_info, hdir, htag, hfn]
  refine ⟨hmain, rfl, fun info habs => ?_, fun err herr => ?_⟩
  · rw [hmain] at habs
    exact Except.noConfusion habs
  · rw [hmain] at herr
    injection herr with h
    rw [← h]
    rfl

/-- Witness for C10 at a concrete single-entry image with empty filename. -/
theorem C10_empty_filename_witness :
    extract_pdb_info ⟨some [plainEntry RSDS_TAG []]⟩ = .error .indexError
    ∧ ExtractError.indexError.classified = false :=
  ⟨(C10_empty_filename ⟨some [plainEntry RSDS_TAG []]⟩ (plainEntry RSDS_TAG [])
      [] rfl rfl rfl).1,
   (C10_empty_filename ⟨some [plainEntry RSDS_TAG []]⟩ (plainEntry RSDS_TAG [])
      [] rfl rfl rfl).2.1⟩

theorem downloadUrl_eq_specUrl (pdbinfo : PdbInfo) (pdbstore : Option String) :
    downloadUrl pdbinfo pdbstore = specUrl pdbinfo pdbstore := by
  have hbase : pdbinfo.basename = specBasename pdbinfo.pdbfilename := by
    rw [PdbInfo.basename, specBasename, basenameChars_eq_spec]
  cases pdbstore with
  | none =>
    rw [downloadUrl, specUrl, specStoreRoot, hbase]
    have h : endsWithSlash DEFAULT_PDB_STORE = false := by decide
    simp only [h, Bool.false_eq_true, if_false]
  | some s => rw [downloadUrl, specUrl, specStoreRoot, hbase]

/-- C6: `download_pdb` always requests exactly
`{store}/{basename}/{signature}/{basename}`; the store defaults to the public
Microsoft symbol server when none is supplied; one trailing slash is stripped
from a supplied store before the path segments are appended; and on the
example identity with the default store the URL is exactly the documented
one. -/
theorem C6_request_url :
    (∀ (pdbinfo : PdbInfo) (pdbstore : Option String) (http : String → Nat × List Nat),
      download_pdb pdbinfo pdbstore http
        = responseOutcome (http (specUrl pdbinfo pdbstore)).1
            (http (specUrl pdbinfo pdbstore)).2)
    ∧ (∀ pdbinfo : PdbInfo, downloadUrl pdbinfo none
        = DEFAULT_PDB_STORE ++ "/" ++ pdbinfo.basename ++ "/"
            ++ pdbinfo.pdb_signature ++ "/" ++ pdbinfo.basename)
    ∧ (∀ (pdbinfo : PdbInfo) (s : String), endsWithSlash s = true →
        downloadUrl pdbinfo (some s)
          = dropLastChar s ++ "/" ++ pdbinfo.basename ++ "/"
              ++ pdbinfo.pdb_signature ++ "/" ++ pdbinfo.basename)
    ∧ (∀ (pdbinfo : PdbInfo) (s : String), endsWithSlash s = false →
        downloadUrl pdbinfo (some s)
          = s ++ "/" ++ pdbinfo.basename ++ "/" ++ pdbinfo.pdb_signature ++ "/"
              ++ pdbinfo.basename)
    ∧ downloadUrl exampleIdentity none
        = "https://msdl.microsoft.com/download/symbols/vcruntime140_1.amd64.pdb/ABCDEF0123456789ABCDEF0123456789A/vcruntime140_1.amd64.pdb" := by
  refine ⟨fun pdbinfo pdbstore http => ?_, fun pdbinfo => ?_,
    fun pdbinfo s hs => ?_, fun pdbinfo s hs => ?_, ?_⟩
  · rw [download_pdb, downloadUrl_eq_specUrl]
  · rw [downloadUrl]
    have h : endsWithSlash DEFAULT_PDB_STORE = false := by decide
    simp only [h, Bool.false_eq_true, if_false]
  · rw [downloadUrl]
    simp only [hs, if_true]
  · rw [downloadUrl]
    simp only [hs, Bool.false_eq_true, if_false]
  · decide

/-- Witness for C6: a supplied store with one trailing slash at a concrete
identity, and the stripped URL it produces. -/
theorem C6_request_url_witness :
    endsWithSlash "http://x/" = true
    ∧ downloadUrl exampleIdentity (some "http://x/")
        = "http://x/vcruntime140_1.amd64.pdb/ABCDEF0123456789ABCDEF0123456789A/vcruntime140_1.amd64.pdb" := by
  refine ⟨by decide, ?_⟩
  rw [C6_request_url.2.2.1 exampleIdentity "http://x/" (by decide)]
  decide

/-- C7: `download_pdb` maps response status 200 to the exact body bytes,
404 to `PdbNotFoundError`, and any other status `s` to
`UnexpectedReturnStatusError` carrying `s`. -/
theorem C7_status_mapping (pdbinfo : PdbInfo) (pdbstore : Option String)
    (http : String → Nat × List Nat) (status : Nat) (body : List Nat)
    (hresp : http (downloadUrl pdbinfo pdbstore) = (status, body)) :
    (status = 200 → download_pdb pdbinfo pdbstore http = .ok body)
    ∧ (status = 404 → download_pdb pdbinfo pdbstore http = .error .pdbNotFound)
    ∧ (status ≠ 200 → status ≠ 404 →
        download_pdb pdbinfo pdbstore http
          = .error (.unexpectedReturnStatus status)) := by
  have hrun : download_pdb pdbinfo pdbstore http = responseOutcome status body := by
    rw [download_pdb, hresp]
  refine ⟨fun h200 => ?_, fun h404 => ?_, fun h200 h404 => ?_⟩
  · rw [hrun, h200]
    rfl
  · rw [hrun, h404]
    rfl
  · rw [hrun, responseOutcome, if_neg h404, if_neg h200]

/-- Witness for C7 at concrete responses: status 500 yields
`UnexpectedReturnStatusError 500`, status 200 yields the body unmodified,
status 404 yields `PdbNotFoundError`. -/
theorem C7_status_mapping_witness :
    download_pdb exampleIdentity none (fun _ => (500, [7, 8]))
      = .error (.unexpectedReturnStatus 500)
    ∧ download_pdb exampleIdentity none (fun _ => (200, [7, 8])) = .ok [7, 8]
    ∧ download_pdb exampleIdentity none (fun _ => (404, [])) = .error .pdbNotFound :=
  ⟨(C7_status_mapping exampleIdentity none (fun _ => (500, [7, 8])) 500 [7, 8]
      rfl).2.2 (by decide) (by decide),
   (C7_status_mapping exampleIdentity none (fun _ => (200, [7, 8])) 200 [7, 8]
      rfl).1 rfl,
   (C7_status_mapping exampleIdentity none (fun _ => (404, [])) 404 []
      rfl).2.1 rfl⟩

theorem char_toNat_ofNat (n : Nat) (h : n.isValidChar) : (Char.ofNat n).toNat = n := by
  unfold Char.ofNat
  rw [dif_pos h]
  simp [Char.ofNatAux, Char.toNat, UInt32.toNat]

theorem utf8Encode_cons (c : Char) (l : List Char) :
    utf8Encode (c :: l) = utf8EncodeChar c ++ utf8Encode l := rfl

theorem utf8DecodeAux_nil (fuel : Nat) : utf8DecodeAux fuel [] = some [] := by
  cases fuel <;> rfl

theorem utf8_decode_encode_aux :
    ∀ (fuel : Nat) (b : List Nat), b.length ≤ fuel →
      ∀ cs, utf8DecodeAux fuel b = some cs → utf8Encode cs = b := by
  intro fuel
  induction fuel with
  | zero =>
    intro b hlen cs hdec
    have hb : b = [] := List.length_eq_zero.mp (Nat.le_zero.mp hlen)
    subst hb
    rw [utf8DecodeAux_nil, Option.some.injEq] at hdec
    subst hdec
    rfl
  | succ n ih =>
    intro b hlen cs hdec
    cases b with
    | nil =>
      rw [utf8DecodeAux_nil, Option.some.injEq] at hdec
      subst hdec
      rfl
    | cons b1 t1 =>
      simp only [List.length_cons] at hlen
      rw [utf8DecodeAux.eq_def] at hdec
      by_cases h1 : b1 < 0x80
      · simp only [h1, if_true] at hdec
        rcases Option.map_eq_some'.mp hdec with ⟨cs', hdec', hcs⟩
        subst hcs
        have henc := ih t1 (by omega) cs' hdec'
        have hval : (Char.ofNat b1).toNat = b1 :=
          char_toNat_ofNat b1 (Or.inl (by omega))
        rw [utf8Encode_cons, henc]
        have hchar : utf8EncodeChar (Char.ofNat b1) = [b1] := by
          simp only [utf8EncodeChar, hval]
          rw [if_pos h1]
        rw [hchar]
        rfl
      · by_cases h2 : b1 < 0xC2
        · simp [h1, h2, if_true, if_false] at hdec
        · by_cases h3 : b1 < 0xE0
          · -- two-byte sequence
            cases t1 with
            | nil =>
              simp [h1, h2, h3, if_true, if_false] at hdec
            | cons b2 t2 =>
              by_cases hc : isCont b2
              · simp only [h1, h2, h3, hc, if_true, if_false] at hdec
                rcases Option.map_eq_some'.mp hdec with ⟨cs', hdec', hcs⟩
                subst hcs
                simp only [List.length_cons] at hlen
                have henc := ih t2 (by omega) cs' hdec'
                have hcb : 0x80 ≤ b2 ∧ b2 < 0xC0 := by
                  simpa [isCont] using hc
                have hcp2 : (b1 - 0xC0) * 0x40 + (b2 - 0x80) < 0x800 := by omega
                have hval : (Char.ofNat ((b1 - 0xC0) * 0x40 + (b2 - 0x80))).toNat
                    = (b1 - 0xC0) * 0x40 + (b2 - 0x80) :=
                  char_toNat_ofNat _ (Or.inl (by omega))
                rw [utf8Encode_cons, henc]
                have hchar : utf8EncodeChar (Char.ofNat ((b1 - 0xC0) * 0x40 + (b2 - 0x80)))
                    = [b1, b2] := by
                  simp only [utf8EncodeChar, hval]
                  rw [if_neg (by omega), if_pos hcp2]
                  have e1 : 0xC0 + ((b1 - 0xC0) * 0x40 + (b2 - 0x80)) / 0x40 = b1 := by
                    omega
                  have e2 : 0x80 + ((b1 - 0xC0) * 0x40 + (b2 - 0x80)) % 0x40 = b2 := by
                    omega
                  rw [e1, e2]
                rw [hchar]
                rfl
              · simp [h1, h2, h3, hc, if_true, if_false] at hdec
          · by_cases h4 : b1 < 0xF0
            · -- three-byte sequence
              cases t1 with
              | nil =>
                simp [h1, h2, h3, h4, if_true, if_false] at hdec
              | cons b2 t2 =>
                cases t2 with
                | nil =>
                  simp [h1, h2, h3, h4, if_true, if_false] at hdec
                | cons b3 t3 =>
                  by_cases hcond : isCont b2 = true ∧ isCont b3 = true
                      ∧ 0x800 ≤ (b1 - 0xE0) * 0x1000 + (b2 - 0x80) * 0x40 + (b3 - 0x80)
                      ∧ ((b1 - 0xE0) * 0x1000 + (b2 - 0x80) * 0x40 + (b3 - 0x80) < 0xD800
                        ∨ 0xE000 ≤ (b1 - 0xE0) * 0x1000 + (b2 - 0x80) * 0x40 + (b3 - 0x80))
                  · simp only [h1, h2, h3, h4, hcond, if_true, if_false,
                      and_true, true_and] at hdec
                    rcases Option.map_eq_some'.mp hdec with ⟨cs', hdec', hcs⟩
                    subst hcs
                    simp only [List.length_cons] at hlen
                    have henc := ih t3 (by omega) cs' hdec'
                    obtain ⟨hc2, hc3, hlo, hsur⟩ := hcond
                    have hcb2 : 0x80 ≤ b2 ∧ b2 < 0xC0 := by simpa [isCont] using hc2
                    have hcb3 : 0x80 ≤ b3 ∧ b3 < 0xC0 := by simpa [isCont] using hc3
                    have hhi : (b1 - 0xE0) * 0x1000 + (b2 - 0x80) * 0x40 + (b3 - 0x80)
                        < 0x10000 := by omega
                    have hval : (Char.ofNat ((b1 - 0xE0) * 0x1000 + (b2 - 0x80) * 0x40
                        + (b3 - 0x80))).toNat
                        = (b1 - 0xE0) * 0x1000 + (b2 - 0x80) * 0x40 + (b3 - 0x80) := by
                      apply char_toNat_ofNat
                      rcases hsur with h | h
                      · exact Or.inl h
                      · exact Or.inr ⟨by omega, by omega⟩
                    rw [utf8Encode_cons, henc]
                    have hchar : utf8EncodeChar (Char.ofNat ((b1 - 0xE0) * 0x1000
                        + (b2 - 0x80) * 0x40 + (b3 - 0x80))) = [b1, b2, b3] := by
                      simp only [utf8EncodeChar, hval]
                      rw [if_neg (by omega), if_neg (by omega), if_pos hhi]
                      have e1 : 0xE0 + ((b1 - 0xE0) * 0x1000 + (b2 - 0x80) * 0x40
                          + (b3 - 0x80)) / 0x1000 = b1 := by omega
                      have e2 : 0x80 + ((b1 - 0xE0) * 0x1000 + (b2 - 0x80) * 0x40
                          + (b3 - 0x80)) / 0x40 % 0x40 = b2 := by omega
                      have e3 : 0x80 + ((b1 - 0xE0) * 0x1000 + (b2 - 0x80) * 0x40
                          + (b3 - 0x80)) % 0x40 = b3 := by omega
                      rw [e1, e2, e3]
                    rw [hchar]
                    rfl
                  · simp [h1, h2, h3, h4, hcond, if_true, if_false] at hdec
            · by_cases h5 : b1 < 0xF5
              · -- four-byte sequence
                cases t1 with
                | nil =>
                  simp [h1, h2, h3, h4, h5, if_true, if_false] at hdec
                | cons b2 t2 =>
                  cases t2 with
                  | nil =>
                    simp [h1, h2, h3, h4, h5, if_true, if_false] at hdec
                  | cons b3 t3 =>
                    cases t3 with
                    | nil =>
                      simp [h1, h2, h3, h4, h5, if_true, if_false] at hdec
                    | cons b4 t4 =>
                      by_cases hcond : isCont b2 = true ∧ isCont b3 = true
                          ∧ isCont b4 = true
                          ∧ 0x10000 ≤ (b1 - 0xF0) * 0x40000 + (b2 - 0x80) * 0x1000
                              + (b3 - 0x80) * 0x40 + (b4 - 0x80)
                          ∧ (b1 - 0xF0) * 0x40000 + (b2 - 0x80) * 0x1000
                              + (b3 - 0x80) * 0x40 + (b4 - 0x80) < 0x110000
                      · simp only [h1, h2, h3, h4, h5, hcond, if_true,
                          if_false, and_true, true_and] at hdec
                        rcases Option.map_eq_some'.mp hdec with ⟨cs', hdec', hcs⟩
                        subst hcs
                        simp only [List.length_cons] at hlen
                        have henc := ih t4 (by omega) cs' hdec'
                        obtain ⟨hc2, hc3, hc4, hlo, hhi⟩ := hcond
                        have hcb2 : 0x80 ≤ b2 ∧ b2 < 0xC0 := by simpa [isCont] using hc2
                        have hcb3 : 0x80 ≤ b3 ∧ b3 < 0xC0 := by simpa [isCont] using hc3
                        have hcb4 : 0x80 ≤ b4 ∧ b4 < 0xC0 := by simpa [isCont] using hc4
                        have hval : (Char.ofNat ((b1 - 0xF0) * 0x40000
                            + (b2 - 0x80) * 0x1000 + (b3 - 0x80) * 0x40
                            + (b4 - 0x80))).toNat
                            = (b1 - 0xF0) * 0x40000 + (b2 - 0x80) * 0x1000
                              + (b3 - 0x80) * 0x40 + (b4 - 0x80) :=
                          char_toNat_ofNat _ (Or.inr ⟨by omega, hhi⟩)
                        rw [utf8Encode_cons, henc]
                        have hchar : utf8EncodeChar (Char.ofNat ((b1 - 0xF0) * 0x40000
                            + (b2 - 0x80) * 0x1000 + (b3 - 0x80) * 0x40 + (b4 - 0x80)))
                            = [b1, b2, b3, b4] := by
                          simp only [utf8EncodeChar, hval]
                          rw [if_neg (by omega), if_neg (by omega), if_neg (by omega)]
                          have e1 : 0xF0 + ((b1 - 0xF0) * 0x40000 + (b2 - 0x80) * 0x1000
                              + (b3 - 0x80) * 0x40 + (b4 - 0x80)) / 0x40000 = b1 := by
                            omega
                          have e2 : 0x80 + ((b1 - 0xF0) * 0x40000 + (b2 - 0x80) * 0x1000
                              + (b3 - 0x80) * 0x40 + (b4 - 0x80)) / 0x1000 % 0x40
                              = b2 := by omega
                          have e3 : 0x80 + ((b1 - 0xF0) * 0x40000 + (b2 - 0x80) * 0x1000
                              + (b3 - 0x80) * 0x40 + (b4 - 0x80)) / 0x40 % 0x40
                              = b3 := by omega
                          have e4 : 0x80 + ((b1 - 0xF0) * 0x40000 + (b2 - 0x80) * 0x1000
                              + (b3 - 0x80) * 0x40 + (b4 - 0x80)) % 0x40 = b4 := by
                            omega
                          rw [e1, e2, e3, e4]
                        rw [hchar]
                        rfl
                      · simp [h1, h2, h3, h4, h5, hcond, if_true,
                          if_false] at hdec
              · simp [h1, h2, h3, h4, h5, if_true, if_false] at hdec

theorem utf8_decode_encode (b : List Nat) (cs : List Char)
    (h : utf8Decode b = some cs) : utf8Encode cs = b :=
  utf8_decode_encode_aux b.length b (le_refl _) cs h

theorem ExtractR_total (pe : ParsedPE) : ExtractR pe (extract_pdb_info pe) := by
  cases hdir : pe.DIRECTORY_ENTRY_DEBUG with
  | none =>
    have h : extract_pdb_info pe = .error .noDebugEntry := by
      simp [extract_pdb_info, hdir]
    rw [h]
    exact .noDir pe hdir
  | some l =>
    cases l with
    | nil =>
      have h : extract_pdb_info pe = .error .noDebugEntry := by
        simp [extract_pdb_info, hdir]
      rw [h]
      exact .emptyDir pe hdir
    | cons e rest =>
      by_cases htag : e.CvSignature = RSDS_TAG
      · cases hfn : e.PdbFileName with
        | nil =>
          have h : extract_pdb_info pe = .error .indexError := by
            simp [extract_pdb_info, hdir, htag, hfn]
          rw [h]
          exact .rsdsEmptyName pe e rest hdir htag hfn
        | cons b bs =>
          cases hdec : utf8Decode (if (b :: bs).getLast? = some 0
              then (b :: bs).dropLast else b :: bs) with
          | none =>
            have h : extract_pdb_info pe = .error .unicodeDecodeError := by
              simp only [extract_pdb_info, hdir, htag, if_true, hfn, hdec]
            rw [h]
            exact .rsdsDecodeFail pe e rest
              (if (b :: bs).getLast? = some 0 then (b :: bs).dropLast else b :: bs)
              hdir htag (by rw [hfn]; exact List.cons_ne_nil b bs)
              (by rw [hfn]) hdec
          | some cs =>
            have h : extract_pdb_info pe = .ok ⟨rsdsSignature e, String.mk cs⟩ := by
              simp only [extract_pdb_info, hdir, htag, if_true, hfn, hdec]
            rw [h]
            exact .rsdsOk pe e rest
              (if (b :: bs).getLast? = some 0 then (b :: bs).dropLast else b :: bs)
              cs hdir htag (by rw [hfn]; exact List.cons_ne_nil b bs)
              (by rw [hfn]) hdec
      · by_cases h01 : e.CvSignature = TAG_01BN
        · have h : extract_pdb_info pe = .error .foundExc := by
            simp only [extract_pdb_info, hdir]
            rw [if_neg htag, if_pos h01]
          rw [h]
          exact .legacy pe e rest hdir h01
        · have h : extract_pdb_info pe
              = .error (.unsupportedDebugEntryType e.CvSignature) := by
            simp only [extract_pdb_info, hdir]
            rw [if_neg htag, if_neg h01]
          rw [h]
          exact .unsupported pe e rest hdir htag h01

/-- C8: on a well-formed image with a single `RSDS`-tagged debug entry, the
extraction relation is deterministic: any two runs on the same parsed input
produce the same result, so identical input bytes always yield an identical
(signature, filename) identity. -/
theorem C8_extract_deterministic (pe : ParsedPE) (e : DebugEntry)
    (hdir : pe.DIRECTORY_ENTRY_DEBUG = some [e])
    (htag : e.CvSignature = RSDS_TAG)
    (r1 r2 : Except ExtractError PdbInfo)
    (h1 : ExtractR pe r1) (h2 : ExtractR pe r2) : r1 = r2 := by
  cases h1 <;> cases h2 <;> simp_all [RSDS_TAG, TAG_01BN]

/-- Witness for C8: two derivations of the extraction relation on the same
concrete single-`RSDS`-entry image are forced to the same identity. -/
theorem C8_extract_deterministic_witness :
    extract_pdb_info exampleRsdsPE
      = .ok ⟨rsdsSignature exampleRsdsEntry, String.mk ['x', '.', 'p', 'd', 'b']⟩ :=
  C8_extract_deterministic exampleRsdsPE exampleRsdsEntry rfl rfl
    (extract_pdb_info exampleRsdsPE)
    (.ok ⟨rsdsSignature exampleRsdsEntry, String.mk ['x', '.', 'p', 'd', 'b']⟩)
    (ExtractR_total exampleRsdsPE)
    (ExtractR.rsdsOk exampleRsdsPE exampleRsdsEntry []
      [0x78, 0x2E, 0x70, 0x64, 0x62] ['x', '.', 'p', 'd', 'b'] rfl rfl
      (by decide) (by decide) (by decide))

/-- C9: for an `RSDS` entry with a non-empty embedded filename field,
`extract_pdb_info` drops the final byte exactly when that byte is a null
terminator, then decodes; the UTF-8 encoding of the returned filename is
exactly those remaining bytes, so every byte other than a trailing null is
preserved in the returned filename. -/
theorem C9_trailing_null (pe : ParsedPE) (e : DebugEntry) (rest : List DebugEntry)
    (hdir : pe.DIRECTORY_ENTRY_DEBUG = some (e :: rest))
    (htag : e.CvSignature = RSDS_TAG) (hne : e.PdbFileName ≠ [])
    (info : PdbInfo) (hok : extract_pdb_info pe = .ok info) :
    utf8Encode info.pdbfilename.data
      = (if e.PdbFileName.getLast? = some 0 then e.PdbFileName.dropLast
         else e.PdbFileName) := by
  simp only [extract_pdb_info, hdir, htag, if_true] at hok
  cases hfn : e.PdbFileName with
  | nil => exact absurd hfn hne
  | cons b bs =>
    rw [hfn] at hok
    cases hdec : utf8Decode (if (b :: bs).getLast? = some 0
        then (b :: bs).dropLast else b :: bs) with
    | none => simp [hdec] at hok
    | some cs =>
      simp only [hdec, Except.ok.injEq] at hok
      rw [← hok]
      exact utf8_decode_encode _ cs hdec

/-- Witness for C9: the example entry's filename bytes `x.pdb\0` end in a
null, the returned filename is `x.pdb`, and its bytes are exactly the field
minus the trailing null. -/
theorem C9_trailing_null_witness :
    utf8Encode ("x.pdb" : String).data = [0x78, 0x2E, 0x70, 0x64, 0x62] := by
  have h := C9_trailing_null exampleRsdsPE exampleRsdsEntry [] rfl rfl
    (by decide) ⟨rsdsSignature exampleRsdsEntry, "x.pdb"⟩ rfl
  exact h.trans (by decide)
